import Mathlib

/-!
Verification development for the TCP ping-pong program (`src/main.cpp`).

The program forks two processes that exchange `"PING"` / `"PONG"` messages
over a loopback TCP connection for `MAX_ITERATIONS = 6` rounds. We embed:

* the `Socket` RAII handle (move semantics, idempotent close),
* `Socket::send_str` / `Socket::recv_str` (each performs exactly one
  transport call; the transport call's outcome is passed in as data),
* the client-side dial sequence of `process_b` (one sleep, one connect),
* the exit-code wiring of `main` (fork, accept, `process_a`, `waitpid`),
* the two-process protocol loop as a small-step transition system with two
  one-directional in-flight message counters as channels; every interleaving
  allowed by blocking receives is a path of the `Step` relation.

Bytes are modelled as `Nat` with `0` as the NUL terminator byte.
-/

/-- `MAX_ITERATIONS` from `main.cpp`: the fixed number of rounds. -/
def MAX_ITERATIONS : Nat := 6

/-- Size of the stack buffer `char buf[128]` in `Socket::recv_str`. -/
def BUF_SIZE : Nat := 128

/-- The bytes of the trigger token `"PING"`. -/
def pingBytes : List Nat := [80, 73, 78, 71]

/-- The bytes of the acknowledge token `"PONG"`. -/
def pongBytes : List Nat := [80, 79, 78, 71]

/-! ## The `Socket` handle (resource ownership) -/

/-- The `Socket` class: it owns one file descriptor; `-1` is the invalid
sentinel meaning the handle owns nothing (`int fd_ = -1;`). -/
structure Socket where
  fd : Int
deriving DecidableEq

/-- The explicit constructor `Socket(int fd)`: throws (`sys_error("socket")`)
when handed a negative descriptor, otherwise takes ownership of it. -/
def Socket.ctorFromFd (fd : Int) : Except String Socket :=
  if fd < 0 then .error "socket" else .ok ⟨fd⟩

/-- The move constructor `Socket(Socket &&other)`: the new handle takes
`other.fd_` and the source is cleared to the invalid sentinel `-1`.
Returns (destination, source-after-move). -/
def Socket.moveCtor (other : Socket) : Socket × Socket :=
  (⟨other.fd⟩, ⟨-1⟩)

/-- The destructor `~Socket()`: `close(fd_)` exactly when `fd_ >= 0`.
`closes` is the log of descriptors closed so far; the destructor appends
`fd_` to it when it owns a resource and leaves it unchanged otherwise. -/
def Socket.destroy (s : Socket) (closes : List Int) : List Int :=
  if 0 ≤ s.fd then closes ++ [s.fd] else closes

/-- The move assignment operator (non-self-assignment case): closes the
destination's current descriptor if owned, steals `other.fd_`, and clears
the source to `-1`.  Returns (destination, source-after-move, close log). -/
def Socket.moveAssign (self other : Socket) (closes : List Int) :
    Socket × Socket × List Int :=
  (⟨other.fd⟩, ⟨-1⟩, if 0 ≤ self.fd then closes ++ [self.fd] else closes)

/-! ## `send_str`: one `send(2)` call of the text plus its NUL terminator -/

/-- `Socket::send_str`: issues exactly one transport write of
`s.size() + 1` bytes (the text plus the terminating NUL).  `sendRet` is the
return value of that single `send(2)` call.  The first component records the
byte sequences handed to the transport (exactly one); the second is the
outcome: an error is raised only when `sendRet < 0`. -/
def send_str (s : List Nat) (sendRet : Int) :
    List (List Nat) × Except String Unit :=
  ([s ++ [0]], if sendRet < 0 then .error "send" else .ok ())

/-! ## `recv_str`: one `recv(2)` call into a 128-byte stack buffer -/

/-- Reading a C string out of a buffer: the bytes before the first NUL. -/
def cStr (l : List Nat) : List Nat :=
  l.takeWhile (fun b => b != 0)

/-- `Socket::recv_str`: issues exactly one transport read of up to
`BUF_SIZE` bytes.  `recvRet` is the return value of that single `recv(2)`
call and `data` the bytes it deposited at the front of the stack buffer;
`buf0` is the buffer's prior (uninitialized) contents.  The first component
records the read requests issued (exactly one, of `BUF_SIZE` bytes).  On
`recvRet <= 0` the call throws (`sys_error("recv")`); otherwise it returns
`std::string{buf}`, i.e. the buffer's bytes before the first NUL — taken
from the whole buffer `data ++ buf0.drop data.length`, not just from the
bytes the transport delivered.  (When no NUL exists anywhere in the buffer
the C++ reads past the array; the model then returns the whole buffer.) -/
def recv_str (buf0 : List Nat) (recvRet : Int) (data : List Nat) :
    List Nat × Except String (List Nat) :=
  ([BUF_SIZE],
   if recvRet ≤ 0 then .error "recv"
   else .ok (cStr (data ++ buf0.drop data.length)))

/-! ## The Responder's dial sequence (`process_b`, before its loop) -/

/-- The observable pre-loop actions of `process_b`. -/
inductive DialAct where
  | sleepSec (n : Nat)
  | connectCall
deriving DecidableEq

/-- The dial phase of `process_b`: one `sleep(1)`, then one `connect`;
`connectRet` is the return value of that single `connect` call.  A negative
return throws (`sys_error("connect")`); there is no retry and no second
connect attempt on either path. -/
def responderDial (connectRet : Int) : List DialAct × Except String Unit :=
  ([.sleepSec 1, .connectCall],
   if connectRet < 0 then .error "connect" else .ok ())

/-! ## Exit-code wiring of `main` -/

/-- The child branch after `fork()`: runs `process_b()` then `_exit(0)`;
an exception escaping `process_b` reaches the `catch` in `main`, which
prints the fatal message and returns 1 from the child process. -/
def childExit (bRes : Except String Unit) : Nat :=
  match bRes with
  | .ok _ => 0
  | .error _ => 1

/-- The parent branch of `main`: constructs the `TcpServer`, forks, accepts,
runs `process_a`, then `waitpid(pid, &status, 0)` and `return 0`.  Each
argument is the outcome of the corresponding step; `childStatus` is the
status `waitpid` collects from the child.  The result is the fatal message
printed (if any) and the parent's exit code.  Note the success branch
returns 0 without inspecting `childStatus`, exactly as in the source. -/
def mainRun (serverRes forkRes acceptRes aRes : Except String Unit)
    (childStatus : Nat) : Option String × Nat :=
  match serverRes with
  | .error e => (some ("Fatal error: " ++ e), 1)
  | .ok _ =>
    match forkRes with
    | .error e => (some ("Fatal error: " ++ e), 1)
    | .ok _ =>
      match acceptRes with
      | .error e => (some ("Fatal error: " ++ e), 1)
      | .ok _ =>
        match aRes with
        | .error e => (some ("Fatal error: " ++ e), 1)
        | .ok _ =>
          let _ := childStatus
          (none, 0)

/-! ## The two-process protocol as a transition system

`process_a` runs `for i in [0, MAX_ITERATIONS): { work; send PING; recv }`
and `process_b` runs `for i in [0, MAX_ITERATIONS): { recv; work; send PONG }`.
The TCP link is modelled as two one-directional channels carrying whole
framed messages; since each direction only ever carries one fixed token,
a channel is the count of in-flight messages.  A receive blocks (is not
enabled) while its channel is empty.  Every interleaving of the two
processes is a path of `Step`. -/

/-- Observable protocol events, in the order they happen globally. -/
inductive Ev where
  | pingSent
  | pingRecvd
  | pongSent
  | pongRecvd
deriving DecidableEq

/-- Program point of `process_a` inside its loop body. -/
inductive APhase where
  | sendPing
  | recvPong
deriving DecidableEq

/-- Program point of `process_b` inside its loop body. -/
inductive BPhase where
  | recvPing
  | sendPong
deriving DecidableEq

/-- Global configuration: loop counters and program points of the two
processes, in-flight message counts of the two channel directions, and the
global event trace (oldest first). -/
structure Conf where
  ia : Nat
  phA : APhase
  ib : Nat
  phB : BPhase
  ab : Nat
  ba : Nat
  tr : List Ev
deriving DecidableEq

/-- Initial configuration: both loops at iteration 0, channels empty. -/
def startConf : Conf := ⟨0, .sendPing, 0, .recvPing, 0, 0, []⟩

/-- One step of either process.  `n` is the loop bound (`MAX_ITERATIONS`).
A's send is enabled at the top of a loop iteration (`ia < n`); its receive
blocks until a PONG is in flight.  B's receive blocks until a PING is in
flight; its send follows its receive.  Loop counters advance when the
respective loop body completes. -/
inductive Step (n : Nat) : Conf → Conf → Prop where
  | aSend (c : Conf) (hph : c.phA = .sendPing) (hlt : c.ia < n) :
      Step n c { c with phA := .recvPong, ab := c.ab + 1,
                        tr := c.tr ++ [.pingSent] }
  | aRecv (c : Conf) (hph : c.phA = .recvPong) (hba : 0 < c.ba) :
      Step n c { c with phA := .sendPing, ia := c.ia + 1, ba := c.ba - 1,
                        tr := c.tr ++ [.pongRecvd] }
  | bRecv (c : Conf) (hph : c.phB = .recvPing) (hlt : c.ib < n)
      (hab : 0 < c.ab) :
      Step n c { c with phB := .sendPong, ab := c.ab - 1,
                        tr := c.tr ++ [.pingRecvd] }
  | bSend (c : Conf) (hph : c.phB = .sendPong) :
      Step n c { c with phB := .recvPing, ib := c.ib + 1, ba := c.ba + 1,
                        tr := c.tr ++ [.pongSent] }

/-- A configuration the system can reach from the start. -/
def Reachable (n : Nat) (c : Conf) : Prop :=
  Relation.ReflTransGen (Step n) startConf c

/-- Both loops have run to completion and each process is past its loop. -/
def Finished (n : Nat) (c : Conf) : Prop :=
  c.ia = n ∧ c.phA = .sendPing ∧ c.ib = n ∧ c.phB = .recvPing

/-! ### Alternation scanners

A generic scanner over the trace: `eA` "arms" (an unmatched occurrence is
outstanding) and `eD` "disarms".  `okScan` checks strict alternation
`eA, eD, eA, eD, …` of the two designated events (other events are
ignored); `armScan` returns the final armed state. -/

/-- Armed-state update for one event. -/
def stepArm (eA eD : Ev) (a : Bool) (e : Ev) : Bool :=
  if e = eA then true else if e = eD then false else a

/-- Admissibility of one event in armed state `a`: a fresh `eA` requires
not armed, an `eD` requires armed. -/
def stepOk (eA eD : Ev) (a : Bool) (e : Ev) : Bool :=
  if e = eA then !a else if e = eD then a else true

/-- Final armed state after scanning a trace. -/
def armScan (eA eD : Ev) (a : Bool) (l : List Ev) : Bool :=
  l.foldl (stepArm eA eD) a

/-- Whether the designated events alternate strictly throughout the trace,
starting from armed state `a`. -/
def okScan (eA eD : Ev) : Bool → List Ev → Bool
  | _, [] => true
  | a, e :: r => stepOk eA eD a e && okScan eA eD (stepArm eA eD a e) r

/-- 1 while `process_a` is between its send and its receive. -/
def bitA : APhase → Nat
  | .sendPing => 0
  | .recvPong => 1

/-- 1 while `process_b` is between its receive and its send. -/
def bitB : BPhase → Nat
  | .recvPing => 0
  | .sendPong => 1

/-- Armed state of the Initiator's alternation scanner, as a function of
its program point: a PING is outstanding exactly between send and receive. -/
def armedA : APhase → Bool
  | .sendPing => false
  | .recvPong => true

/-- Armed state of the Responder's alternation scanner. -/
def armedB : BPhase → Bool
  | .recvPing => false
  | .sendPong => true

/-- The inductive invariant of the protocol: trace counts agree with the
loop counters and program points, channel contents equal sends minus
receives, loop counters are bounded, and both alternation scanners accept
the trace with final armed state matching the program point. -/
structure ProtoInv (n : Nat) (c : Conf) : Prop where
  hsA : c.tr.count Ev.pingSent = c.ia + bitA c.phA
  hrA : c.tr.count Ev.pongRecvd = c.ia
  hrB : c.tr.count Ev.pingRecvd = c.ib + bitB c.phB
  hsB : c.tr.count Ev.pongSent = c.ib
  hia : c.ia + bitA c.phA ≤ n
  hib : c.ib + bitB c.phB ≤ n
  hab : c.ia + bitA c.phA = c.ib + bitB c.phB + c.ab
  hba : c.ib = c.ia + c.ba
  hokA : okScan .pingSent .pongRecvd false c.tr = true
  harmA : armScan .pingSent .pongRecvd false c.tr = armedA c.phA
  hokB : okScan .pingRecvd .pongSent false c.tr = true
  harmB : armScan .pingRecvd .pongSent false c.tr = armedB c.phB

/-- Trace of `k` complete rounds: each round is
PING sent, PING received, PONG sent, PONG received. -/
def happyTr : Nat → List Ev
  | 0 => []
  | k + 1 =>
    (((happyTr k ++ [.pingSent]) ++ [.pingRecvd]) ++ [.pongSent])
      ++ [.pongRecvd]

/-- Configuration after `k` complete rounds. -/
def happyConf (k : Nat) : Conf :=
  ⟨k, .sendPing, k, .recvPing, 0, 0, happyTr k⟩

/-! ### Scanner lemmas -/

theorem stepOk_other {eA eD : Ev} (b : Bool) {e : Ev} (h1 : e ≠ eA)
    (h2 : e ≠ eD) : stepOk eA eD b e = true := by
  simp [stepOk, h1, h2]

theorem stepArm_other {eA eD : Ev} (b : Bool) {e : Ev} (h1 : e ≠ eA)
    (h2 : e ≠ eD) : stepArm eA eD b e = b := by
  simp [stepArm, h1, h2]

theorem armScan_append (eA eD : Ev) (a : Bool) (l m : List Ev) :
    armScan eA eD a (l ++ m) = armScan eA eD (armScan eA eD a l) m := by
  simp [armScan, List.foldl_append]

theorem armScan_concat (eA eD : Ev) (a : Bool) (l : List Ev) (e : Ev) :
    armScan eA eD a (l ++ [e]) = stepArm eA eD (armScan eA eD a l) e := by
  simp [armScan, List.foldl_append]

theorem okScan_append (eA eD : Ev) (a : Bool) (l m : List Ev) :
    okScan eA eD a (l ++ m)
      = (okScan eA eD a l && okScan eA eD (armScan eA eD a l) m) := by
  induction l generalizing a with
  | nil => simp [okScan, armScan]
  | cons e t ih =>
    simp [okScan, armScan, List.foldl_cons, ih, Bool.and_assoc]

theorem okScan_concat (eA eD : Ev) (a : Bool) (l : List Ev) (e : Ev) :
    okScan eA eD a (l ++ [e])
      = (okScan eA eD a l && stepOk eA eD (armScan eA eD a l) e) := by
  rw [okScan_append]; simp [okScan]

theorem armScan_true_eq_false_mem (eA eD : Ev) (l : List Ev)
    (h : armScan eA eD true l = false) : eD ∈ l := by
  induction l with
  | nil => simp [armScan] at h
  | cons e t ih =>
    by_cases he : e = eD
    · exact he ▸ List.mem_cons_self e t
    · have hst : stepArm eA eD true e = true := by simp [stepArm, he]
      simp only [armScan, List.foldl_cons] at h
      rw [show stepArm eA eD true e = true from hst] at h
      exact List.mem_cons_of_mem _ (ih h)

/-- From strict alternation: in every trace segment between two `eA`
occurrences there is an `eD`. -/
theorem okScan_no_double {eA eD : Ev} {a : Bool} {l : List Ev}
    (h : okScan eA eD a l = true) :
    ∀ x y z, l = x ++ eA :: (y ++ eA :: z) → eD ∈ y := by
  intro x y z hl
  subst hl
  rw [okScan_append, Bool.and_eq_true] at h
  obtain ⟨-, h2⟩ := h
  simp only [okScan] at h2
  rw [Bool.and_eq_true] at h2
  obtain ⟨-, h3⟩ := h2
  rw [show stepArm eA eD (armScan eA eD a x) eA = true from by simp [stepArm]]
    at h3
  rw [okScan_append, Bool.and_eq_true] at h3
  obtain ⟨-, h4⟩ := h3
  simp only [okScan] at h4
  rw [Bool.and_eq_true] at h4
  obtain ⟨h5, -⟩ := h4
  have h6 : armScan eA eD true y = false := by simpa [stepOk] using h5
  exact armScan_true_eq_false_mem eA eD y h6

/-- The armed state flips to `true` only at an `eA`. -/
theorem armScan_false_eq_true_mem (eA eD : Ev) (l : List Ev)
    (h : armScan eA eD false l = true) : eA ∈ l := by
  induction l with
  | nil => simp [armScan] at h
  | cons e t ih =>
    by_cases he : e = eA
    · exact he ▸ List.mem_cons_self e t
    · have hst : stepArm eA eD false e = false := by simp [stepArm, he]
      simp only [armScan, List.foldl_cons] at h
      rw [show stepArm eA eD false e = false from hst] at h
      exact List.mem_cons_of_mem _ (ih h)

/-- From strict alternation: in every trace segment between two `eD`
occurrences there is an `eA`. -/
theorem okScan_no_double_disarm {eA eD : Ev} (hne : eA ≠ eD) {a : Bool}
    {l : List Ev} (h : okScan eA eD a l = true) :
    ∀ x y z, l = x ++ eD :: (y ++ eD :: z) → eA ∈ y := by
  intro x y z hl
  subst hl
  rw [okScan_append, Bool.and_eq_true] at h
  obtain ⟨-, h2⟩ := h
  simp only [okScan] at h2
  rw [Bool.and_eq_true] at h2
  obtain ⟨-, h3⟩ := h2
  rw [show stepArm eA eD (armScan eA eD a x) eD = false from by
        simp [stepArm, Ne.symm hne]] at h3
  rw [okScan_append, Bool.and_eq_true] at h3
  obtain ⟨-, h4⟩ := h3
  simp only [okScan] at h4
  rw [Bool.and_eq_true] at h4
  obtain ⟨h5, -⟩ := h4
  have h6 : armScan eA eD false y = true := by
    simpa [stepOk, Ne.symm hne] using h5
  exact armScan_false_eq_true_mem eA eD y h6

/-- From strict alternation starting unarmed: in every take-prefix of the
trace the disarming events never outnumber the arming ones, and the arming
ones never lead by more than one.  (The `k`-th `eD` therefore occurs
strictly after the `k`-th `eA`.) -/
theorem okScan_take_counts {eA eD : Ev} (hne : eA ≠ eD) :
    ∀ (l : List Ev) (a : Bool), okScan eA eD a l = true →
    ∀ k, ((l.take k).count eD) ≤ ((l.take k).count eA) + a.toNat ∧
         ((l.take k).count eA) + a.toNat ≤ ((l.take k).count eD) + 1 := by
  intro l
  induction l with
  | nil =>
    intro a _ k
    cases a <;> simp
  | cons e t ih =>
    intro a h k
    simp only [okScan, Bool.and_eq_true] at h
    obtain ⟨h1, h2⟩ := h
    cases k with
    | zero => cases a <;> simp
    | succ k =>
      have hIH := ih (stepArm eA eD a e) h2 k
      rw [List.take_succ_cons]
      by_cases hA : e = eA
      · have ha : a = false := by simpa [stepOk, hA] using h1
        subst ha
        rw [show stepArm eA eD false e = true from by simp [stepArm, hA]]
          at hIH
        rw [hA, List.count_cons_self, List.count_cons_of_ne hne.symm]
        simp only [Bool.toNat_false, Bool.toNat_true] at hIH ⊢
        omega
      · by_cases hD : e = eD
        · have ha : a = true := by simpa [stepOk, hD, hne.symm] using h1
          subst ha
          rw [show stepArm eA eD true e = false from by
                simp [stepArm, hD, hne.symm]] at hIH
          rw [hD, List.count_cons_self, List.count_cons_of_ne hne]
          simp only [Bool.toNat_false, Bool.toNat_true] at hIH ⊢
          omega
        · rw [stepArm_other a hA hD] at hIH
          rw [List.count_cons_of_ne (fun hh => hD hh.symm),
              List.count_cons_of_ne (fun hh => hA hh.symm)]
          exact hIH

/-! ### Trace counting helpers -/

theorem count_concat_self (l : List Ev) (e : Ev) :
    (l ++ [e]).count e = l.count e + 1 := by
  simp

theorem count_concat_ne (l : List Ev) {e e' : Ev} (h : e' ≠ e) :
    (l ++ [e]).count e' = l.count e' := by
  rw [List.count_append, List.count_cons_of_ne h, List.count_nil]
  omega

/-! ### The reachability invariant -/

/-- Appending an event foreign to a scanner preserves acceptance. -/
theorem okScan_concat_other {eA eD : Ev} {l : List Ev}
    (h : okScan eA eD false l = true) {e : Ev} (h1 : e ≠ eA) (h2 : e ≠ eD) :
    okScan eA eD false (l ++ [e]) = true := by
  rw [okScan_concat, h, stepOk_other _ h1 h2]; rfl

/-- Appending an event foreign to a scanner preserves its armed state. -/
theorem armScan_concat_other {eA eD : Ev} {l : List Ev} {b : Bool}
    (h : armScan eA eD false l = b) {e : Ev} (h1 : e ≠ eA) (h2 : e ≠ eD) :
    armScan eA eD false (l ++ [e]) = b := by
  rw [armScan_concat, stepArm_other _ h1 h2, h]

theorem inv_start (n : Nat) : ProtoInv n startConf := by
  refine ⟨?_, ?_, ?_, ?_, ?_, ?_, ?_, ?_, ?_, ?_, ?_, ?_⟩ <;>
    simp [startConf, bitA, bitB, armedA, armedB, okScan, armScan]

theorem inv_step {n : Nat} {c c' : Conf} (h : Step n c c') (hI : ProtoInv n c) :
    ProtoInv n c' := by
  obtain ⟨hsA, hrA, hrB, hsB, hia, hib, hab, hba, hokA, harmA, hokB, harmB⟩ :=
    hI
  cases h with
  | aSend hph hlt =>
    rw [hph] at hsA hia hab harmA
    refine ⟨?_, ?_, ?_, ?_, ?_, ?_, ?_, ?_, ?_, ?_, ?_, ?_⟩
    · rw [count_concat_self, hsA]; simp [bitA]
    · rw [count_concat_ne _ (by decide)]; exact hrA
    · rw [count_concat_ne _ (by decide)]; exact hrB
    · rw [count_concat_ne _ (by decide)]; exact hsB
    · simpa [bitA] using hlt
    · exact hib
    · simp only [bitA] at hab ⊢; omega
    · exact hba
    · rw [okScan_concat, hokA, harmA]; rfl
    · rw [armScan_concat, harmA]; rfl
    · exact okScan_concat_other hokB (by decide) (by decide)
    · exact armScan_concat_other harmB (by decide) (by decide)
  | aRecv hph hba' =>
    rw [hph] at hsA hia hab harmA
    refine ⟨?_, ?_, ?_, ?_, ?_, ?_, ?_, ?_, ?_, ?_, ?_, ?_⟩
    · rw [count_concat_ne _ (by decide), hsA]; simp [bitA]
    · rw [count_concat_self, hrA]
    · rw [count_concat_ne _ (by decide)]; exact hrB
    · rw [count_concat_ne _ (by decide)]; exact hsB
    · simpa [bitA] using hia
    · exact hib
    · simp only [bitA] at hab ⊢; omega
    · simp only; omega
    · rw [okScan_concat, hokA, harmA]; rfl
    · rw [armScan_concat, harmA]; rfl
    · exact okScan_concat_other hokB (by decide) (by decide)
    · exact armScan_concat_other harmB (by decide) (by decide)
  | bRecv hph hlt hab' =>
    rw [hph] at hrB hib hab harmB
    refine ⟨?_, ?_, ?_, ?_, ?_, ?_, ?_, ?_, ?_, ?_, ?_, ?_⟩
    · rw [count_concat_ne _ (by decide)]; exact hsA
    · rw [count_concat_ne _ (by decide)]; exact hrA
    · rw [count_concat_self, hrB]; simp [bitB]
    · rw [count_concat_ne _ (by decide)]; exact hsB
    · exact hia
    · simpa [bitB] using hlt
    · simp only [bitB] at hab ⊢; omega
    · exact hba
    · exact okScan_concat_other hokA (by decide) (by decide)
    · exact armScan_concat_other harmA (by decide) (by decide)
    · rw [okScan_concat, hokB, harmB]; rfl
    · rw [armScan_concat, harmB]; rfl
  | bSend hph =>
    rw [hph] at hrB hib hab harmB
    refine ⟨?_, ?_, ?_, ?_, ?_, ?_, ?_, ?_, ?_, ?_, ?_, ?_⟩
    · rw [count_concat_ne _ (by decide)]; exact hsA
    · rw [count_concat_ne _ (by decide)]; exact hrA
    · rw [count_concat_ne _ (by decide), hrB]; simp [bitB]
    · rw [count_concat_self, hsB]
    · exact hia
    · simpa [bitB] using hib
    · simp only [bitB] at hab ⊢; omega
    · simp only; omega
    · exact okScan_concat_other hokA (by decide) (by decide)
    · exact armScan_concat_other harmA (by decide) (by decide)
    · rw [okScan_concat, hokB, harmB]; rfl
    · rw [armScan_concat, harmB]; rfl

theorem inv_reachable {n : Nat} {c : Conf} (h : Reachable n c) : ProtoInv n c := by
  induction h with
  | refl => exact inv_start n
  | tail _ hstep ih => exact inv_step hstep ih

/-! ### The canonical complete run (used to witness reachability) -/

theorem happy_step (n k : Nat) (h : k < n) :
    Relation.ReflTransGen (Step n) (happyConf k) (happyConf (k + 1)) := by
  refine Relation.ReflTransGen.head (Step.aSend (happyConf k) rfl h) ?_
  refine Relation.ReflTransGen.head (Step.bRecv _ rfl h Nat.one_pos) ?_
  refine Relation.ReflTransGen.head (Step.bSend _ rfl) ?_
  refine Relation.ReflTransGen.head (Step.aRecv _ rfl Nat.one_pos) ?_
  exact Relation.ReflTransGen.refl

theorem happy_reach (n k : Nat) (h : k ≤ n) : Reachable n (happyConf k) := by
  induction k with
  | zero => exact Relation.ReflTransGen.refl
  | succ k ih =>
    exact (ih (Nat.le_of_succ_le h)).trans (happy_step n k h)

theorem happy_finished (n : Nat) : Finished n (happyConf n) :=
  ⟨rfl, rfl, rfl, rfl⟩

/-! ### C-string extraction lemmas -/

theorem cStr_append_nul (msg w : List Nat) (h : ∀ x ∈ msg, x ≠ 0) :
    cStr (msg ++ 0 :: w) = msg := by
  induction msg with
  | nil => rfl
  | cons a t ih =>
    have ha : (a != 0) = true := by
      simpa using h a (List.mem_cons_self a t)
    have ih' := ih (fun x hx => h x (List.mem_cons_of_mem a hx))
    simp [cStr, List.takeWhile_cons, ha] at ih' ⊢
    exact ih'

theorem cStr_append_no_nul (l m : List Nat) (h : ∀ x ∈ l, x ≠ 0) :
    cStr (l ++ m) = l ++ cStr m := by
  induction l with
  | nil => rfl
  | cons a t ih =>
    have ha : (a != 0) = true := by
      simpa using h a (List.mem_cons_self a t)
    have ih' := ih (fun x hx => h x (List.mem_cons_of_mem a hx))
    simp [cStr, List.takeWhile_cons, ha] at ih' ⊢
    exact ih'

/-! ## Claim theorems -/

/-- C6: `recv_str` fails with the transport error exactly when the single
underlying `recv` returns zero bytes (peer closed the connection) or a
negative value (the read was rejected).  In particular a peer that exits
mid-protocol makes the next `recv` return 0, so the call raises the error
instead of blocking. -/
theorem recv_transport_error_iff (buf0 data : List Nat) (recvRet : Int) :
    (recv_str buf0 recvRet data).2 = .error "recv" ↔
      recvRet = 0 ∨ recvRet < 0 := by
  by_cases hr : recvRet ≤ 0
  · have hd : recvRet = 0 ∨ recvRet < 0 := by omega
    simp [recv_str, hr, hd]
  · simp [recv_str, hr]
    omega

/-- C5 (amended): a successful `recv_str` returns the bytes of its single
transport read up to the first NUL in the buffer; when a whole message,
terminator included, arrived in that one read, that is exactly the message
text with the terminator stripped.  Bytes of a message split across several
transport reads are not reassembled (see the counterexample). -/
theorem recv_returns_single_read (buf0 data : List Nat) (h : data ≠ []) :
    (recv_str buf0 (data.length : Int) data).2
        = .ok (cStr (data ++ buf0.drop data.length)) ∧
    ∀ msg rest, data = msg ++ 0 :: rest → (∀ x ∈ msg, x ≠ 0) →
      (recv_str buf0 (data.length : Int) data).2 = .ok msg := by
  have hlen : 0 < data.length := List.length_pos.mpr h
  have hret : ¬((data.length : Int) ≤ 0) := by omega
  constructor
  · simp [recv_str, h]
  · intro msg rest hdata hmsg
    simp only [recv_str, if_neg hret]
    subst hdata
    rw [List.append_assoc, List.cons_append]
    exact congrArg Except.ok (cStr_append_nul msg _ hmsg)

/-- C5 counterexample: the peer sent the message `"PING"` plus its NUL
terminator, but the transport delivered only the first two bytes `"PI"` to
this read (with a zeroed buffer standing in for the uninitialized stack
memory).  The receive call succeeds and returns `"PI"`, not the message
text `"PING"` — so a successful receive does *not* always return a complete
message with the terminator stripped when bytes arrive across several
transport-level reads. -/
theorem recv_split_message_cex :
    (recv_str (List.replicate BUF_SIZE 0) 2 [80, 73]).2 = .ok [80, 73] ∧
    ([80, 73] : List Nat) ≠ pingBytes :=
  ⟨rfl, by decide⟩

/-- C9: `recv_str` issues exactly one read request of `BUF_SIZE = 128`
bytes and returns the buffer bytes before its first NUL: bytes delivered
after the first NUL in the same read are silently discarded, and when the
delivered bytes contain no NUL at all the returned string continues into
the buffer contents beyond the received data (uninitialized memory). -/
theorem recv_single_read_semantics (buf0 data : List Nat)
    (hb : buf0.length = BUF_SIZE) (hd : data.length ≤ BUF_SIZE)
    (h : data ≠ []) :
    (recv_str buf0 (data.length : Int) data).1 = [BUF_SIZE] ∧
    (recv_str buf0 (data.length : Int) data).2
        = .ok (cStr (data ++ buf0.drop data.length)) ∧
    (∀ pre post, data = pre ++ 0 :: post → (∀ x ∈ pre, x ≠ 0) →
        (recv_str buf0 (data.length : Int) data).2 = .ok pre) ∧
    ((∀ x ∈ data, x ≠ 0) →
        (recv_str buf0 (data.length : Int) data).2
          = .ok (data ++ cStr (buf0.drop data.length))) := by
  have hlen : 0 < data.length := List.length_pos.mpr h
  have hret : ¬((data.length : Int) ≤ 0) := by omega
  refine ⟨rfl, by simp [recv_str, h], ?_, ?_⟩
  · intro pre post hdata hpre
    simp only [recv_str, if_neg hret]
    subst hdata
    rw [List.append_assoc, List.cons_append]
    exact congrArg Except.ok (cStr_append_nul pre _ hpre)
  · intro hall
    simp only [recv_str, if_neg hret]
    exact congrArg Except.ok (cStr_append_no_nul data _ hall)

/-- C9 witness: a read delivering `"PING\0*"` (a NUL followed by one more
byte) into a buffer previously holding 128 copies of 7 returns exactly
`"PING"` and discards the byte after the NUL. -/
theorem recv_single_read_semantics_witness :
    (recv_str (List.replicate BUF_SIZE 7)
        (([80, 73, 78, 71, 0, 42] : List Nat).length : Int)
        [80, 73, 78, 71, 0, 42]).2 = .ok [80, 73, 78, 71] :=
  (recv_single_read_semantics (List.replicate BUF_SIZE 7)
      [80, 73, 78, 71, 0, 42] (by simp) (by decide) (by decide)).2.2.1
    [80, 73, 78, 71] [42] (by decide) (by decide)

/-- C5 witness: when the whole message `"PING"` plus terminator arrives in
the single read, the call returns the text without the terminator. -/
theorem recv_returns_single_read_witness :
    (recv_str (List.replicate BUF_SIZE 9)
        (([80, 73, 78, 71, 0] : List Nat).length : Int)
        [80, 73, 78, 71, 0]).2 = .ok pingBytes :=
  (recv_returns_single_read (List.replicate BUF_SIZE 9)
      [80, 73, 78, 71, 0] (by decide)).2 pingBytes [] (by decide) (by decide)

/-- C10: `send_str` performs exactly one transport write, of the text plus
its NUL terminator, and treats any non-negative return — even a short
write of fewer than `length + 1` bytes — as success: no error is raised
and no follow-up write is issued. -/
theorem send_ignores_short_write (s : List Nat) (sendRet : Int)
    (h0 : 0 ≤ sendRet) (hshort : sendRet < (s.length : Int) + 1) :
    (send_str s sendRet).2 = .ok () ∧
    (send_str s sendRet).1 = [s ++ [0]] := by
  refine ⟨?_, rfl⟩
  simp [send_str, if_neg (not_lt.mpr h0)]

/-- C10 witness: sending `"PING"` (5 bytes with terminator) with the
transport accepting only 2 bytes still reports success and a single write. -/
theorem send_ignores_short_write_witness :
    (send_str pingBytes 2).2 = .ok () ∧
    (send_str pingBytes 2).1 = [pingBytes ++ [0]] :=
  send_ignores_short_write pingBytes 2 (by decide) (by decide)

/-- C1: in every complete run of the protocol (any interleaving reaching a
configuration where both loops have finished their `MAX_ITERATIONS = 6`
iterations), the Initiator has sent exactly 6 PING messages and received
exactly 6 PONG acknowledgements; and in every prefix of the global trace
the acknowledgements received never outnumber the triggers sent, i.e. the
`k`-th acknowledge is received strictly after the `k`-th trigger was sent. -/
theorem initiator_round_counts (c : Conf)
    (hr : Reachable MAX_ITERATIONS c) (hf : Finished MAX_ITERATIONS c) :
    c.tr.count Ev.pingSent = MAX_ITERATIONS ∧
    c.tr.count Ev.pongRecvd = MAX_ITERATIONS ∧
    ∀ k, (c.tr.take k).count Ev.pongRecvd
          ≤ (c.tr.take k).count Ev.pingSent := by
  obtain ⟨hA, hpA, hB, hpB⟩ := hf
  have hI := inv_reachable hr
  refine ⟨?_, ?_, ?_⟩
  · rw [hI.hsA, hA, hpA]; rfl
  · rw [hI.hrA, hA]
  · intro k
    have hc := (okScan_take_counts (by decide) c.tr false hI.hokA k).1
    simpa using hc

/-- C1 witness: the canonical complete 6-round run. -/
theorem initiator_round_counts_witness :
    (happyConf MAX_ITERATIONS).tr.count Ev.pingSent = MAX_ITERATIONS ∧
    (happyConf MAX_ITERATIONS).tr.count Ev.pongRecvd = MAX_ITERATIONS :=
  ⟨(initiator_round_counts (happyConf MAX_ITERATIONS)
      (happy_reach MAX_ITERATIONS MAX_ITERATIONS le_rfl)
      (happy_finished MAX_ITERATIONS)).1,
   (initiator_round_counts (happyConf MAX_ITERATIONS)
      (happy_reach MAX_ITERATIONS MAX_ITERATIONS le_rfl)
      (happy_finished MAX_ITERATIONS)).2.1⟩

/-- C2: in every complete run, the Responder has received exactly 6 PING
triggers and sent exactly 6 PONG acknowledgements; and in every prefix of
the global trace the acknowledgements sent never outnumber the triggers
received, i.e. the `k`-th acknowledge is sent strictly after the `k`-th
trigger was received. -/
theorem responder_round_counts (c : Conf)
    (hr : Reachable MAX_ITERATIONS c) (hf : Finished MAX_ITERATIONS c) :
    c.tr.count Ev.pingRecvd = MAX_ITERATIONS ∧
    c.tr.count Ev.pongSent = MAX_ITERATIONS ∧
    ∀ k, (c.tr.take k).count Ev.pongSent
          ≤ (c.tr.take k).count Ev.pingRecvd := by
  obtain ⟨hA, hpA, hB, hpB⟩ := hf
  have hI := inv_reachable hr
  refine ⟨?_, ?_, ?_⟩
  · rw [hI.hrB, hB, hpB]; rfl
  · rw [hI.hsB, hB]
  · intro k
    have hc := (okScan_take_counts (by decide) c.tr false hI.hokB k).1
    simpa using hc

/-- C2 witness: the canonical complete 6-round run. -/
theorem responder_round_counts_witness :
    (happyConf MAX_ITERATIONS).tr.count Ev.pingRecvd = MAX_ITERATIONS ∧
    (happyConf MAX_ITERATIONS).tr.count Ev.pongSent = MAX_ITERATIONS :=
  ⟨(responder_round_counts (happyConf MAX_ITERATIONS)
      (happy_reach MAX_ITERATIONS MAX_ITERATIONS le_rfl)
      (happy_finished MAX_ITERATIONS)).1,
   (responder_round_counts (happyConf MAX_ITERATIONS)
      (happy_reach MAX_ITERATIONS MAX_ITERATIONS le_rfl)
      (happy_finished MAX_ITERATIONS)).2.1⟩

/-- C3: in every execution trace (every reachable configuration under every
interleaving), between any two PING sends of the Initiator there is an
intervening PONG receive, and between any two PONG sends of the Responder
there is an intervening PING receive.  The alternation comes only from the
blocking receives encoded in the `Step` relation — there is no shared
counter in the model. -/
theorem role_alternation (c : Conf) (hr : Reachable MAX_ITERATIONS c) :
    (∀ x y z, c.tr = x ++ Ev.pingSent :: (y ++ Ev.pingSent :: z) →
        Ev.pongRecvd ∈ y) ∧
    (∀ x y z, c.tr = x ++ Ev.pongSent :: (y ++ Ev.pongSent :: z) →
        Ev.pingRecvd ∈ y) := by
  have hI := inv_reachable hr
  exact ⟨okScan_no_double hI.hokA,
         okScan_no_double_disarm (by decide) hI.hokB⟩

/-- C3 witness: in the 2-round canonical run, the segment between the two
PING sends contains the intervening PONG receive. -/
theorem role_alternation_witness :
    Ev.pongRecvd ∈ [Ev.pingRecvd, Ev.pongSent, Ev.pongRecvd] :=
  (role_alternation (happyConf 2)
      (happy_reach MAX_ITERATIONS 2 (by decide))).1
    [] [Ev.pingRecvd, Ev.pongSent, Ev.pongRecvd]
    [Ev.pingRecvd, Ev.pongSent, Ev.pongRecvd] (by decide)

/-- C4 (amended): the overall exit status is 0 exactly when the parent
side — server construction, fork, accept and the Initiator role — all
succeed, independently of the child's status; any parent-side failure
prints a fatal message and exits 1; a failing Responder makes its own
context exit 1, but `main` never inspects the status collected by
`waitpid`, so a Responder failure alone is not surfaced in the overall
exit status. -/
theorem orchestrator_exit_code (sR fR accR aR : Except String Unit)
    (st st' : Nat) :
    ((mainRun sR fR accR aR st).2 = 0 ↔
      sR = .ok () ∧ fR = .ok () ∧ accR = .ok () ∧ aR = .ok ()) ∧
    mainRun sR fR accR aR st = mainRun sR fR accR aR st' ∧
    ((mainRun sR fR accR aR st).2 ≠ 0 →
      (mainRun sR fR accR aR st).1.isSome = true) ∧
    ∀ e, childExit (.error e) = 1 := by
  rcases sR with e | ⟨⟩ <;> rcases fR with f | ⟨⟩ <;>
    rcases accR with g | ⟨⟩ <;> rcases aR with i | ⟨⟩ <;>
    simp [mainRun, childExit]

/-- C4 witness: with the whole parent side failing at `bind`, the process
exits non-zero and a fatal message is printed. -/
theorem orchestrator_exit_code_witness :
    (mainRun (.error "bind") (.ok ()) (.ok ()) (.ok ()) 0).1.isSome
      = true :=
  (orchestrator_exit_code (.error "bind") (.ok ()) (.ok ()) (.ok ())
      0 1).2.2.1 (by decide)

/-- C4 counterexample: the Responder role fails (its context reports a
fatal error and exits with status 1), yet the parent runs to completion,
prints no error and returns 0 — `waitpid`'s status is collected but never
examined, so the Orchestrator does not surface the Responder's fatal error
as the overall outcome, contradicting the claim that overall success
requires both roles to complete. -/
theorem orchestrator_ignores_responder_failure :
    childExit (.error "connect") = 1 ∧
    mainRun (.ok ()) (.ok ()) (.ok ()) (.ok ())
        (childExit (.error "connect")) = (none, 0) :=
  ⟨rfl, rfl⟩

/-- C7: moving a socket handle transfers the descriptor and clears the
source to the invalid sentinel `-1` (so the source no longer owns the
original descriptor and at most one live handle owns it); destruction
closes the descriptor exactly when it is owned, and does nothing at the
sentinel; destroying both halves of a moved pair closes the descriptor
exactly once. -/
theorem socket_unique_ownership (s d : Socket) (closes : List Int)
    (h : 0 ≤ s.fd) :
    (Socket.moveCtor s).1.fd = s.fd ∧
    (Socket.moveCtor s).2.fd = -1 ∧
    (Socket.moveCtor s).2.fd ≠ s.fd ∧
    (Socket.moveAssign d s closes).1.fd = s.fd ∧
    (Socket.moveAssign d s closes).2.1.fd = -1 ∧
    Socket.destroy ⟨-1⟩ closes = closes ∧
    Socket.destroy s closes = closes ++ [s.fd] ∧
    Socket.destroy (Socket.moveCtor s).2
        (Socket.destroy (Socket.moveCtor s).1 closes)
      = closes ++ [s.fd] := by
  refine ⟨rfl, rfl, ?_, rfl, rfl, ?_, ?_, ?_⟩
  · intro hc
    have hc' : (-1 : Int) = s.fd := hc
    omega
  · simp [Socket.destroy]
  · simp [Socket.destroy, h]
  · simp [Socket.destroy, Socket.moveCtor, h]

/-- C7 witness: a handle owning descriptor 4, moved and then both handles
destroyed, closes 4 exactly once. -/
theorem socket_unique_ownership_witness :
    Socket.destroy (Socket.moveCtor ⟨4⟩).2
        (Socket.destroy (Socket.moveCtor ⟨4⟩).1 [])
      = [] ++ [(4 : Int)] ∧
    (Socket.moveCtor (⟨4⟩ : Socket)).2.fd = -1 :=
  ⟨(socket_unique_ownership ⟨4⟩ ⟨9⟩ [] (by decide)).2.2.2.2.2.2.2,
   (socket_unique_ownership ⟨4⟩ ⟨9⟩ [] (by decide)).2.1⟩

/-- C8: the Responder performs exactly one dial attempt, preceded by a
single fixed synchronous one-second delay, with no retry loop; a failing
dial is fatal (`sys_error("connect")`) and no reconnection is attempted —
the action sequence is the same two actions on both outcomes. -/
theorem responder_single_dial_attempt (connectRet : Int) :
    (responderDial connectRet).1 = [.sleepSec 1, .connectCall] ∧
    (responderDial connectRet).1.count .connectCall = 1 ∧
    (connectRet < 0 → (responderDial connectRet).2 = .error "connect") ∧
    (0 ≤ connectRet → (responderDial connectRet).2 = .ok ()) := by
  refine ⟨rfl, rfl, ?_, ?_⟩
  · intro h; simp [responderDial, h]
  · intro h; simp [responderDial, if_neg (not_lt.mpr h)]

/-- C8 witness: a failing dial (return −1) raises the fatal connect error
after the single delay-then-dial sequence. -/
theorem responder_single_dial_attempt_witness :
    (responderDial (-1)).2 = .error "connect" ∧
    (responderDial (-1)).1.count .connectCall = 1 :=
  ⟨(responder_single_dial_attempt (-1)).2.2.1 (by decide),
   (responder_single_dial_attempt (-1)).2.1⟩
